import Mathlib

/-!
Shallow embedding of the trajectory-generation pipeline of
`baxter_writer.py` (class `BaxterWriter` and its methods), over exact
rational arithmetic.  External collaborators (the kinematic/dynamic model
adapter, the RBF function approximator and the iLQR solver engine) are
modelled as abstract function records, mirroring the interfaces the source
calls into.
-/

set_option autoImplicit false

namespace BaxterWriterEmbedding

/-- A point in 3D task space (a row of the numpy `spatial_traj` array). -/
structure Vec3 where
  x : ℚ
  y : ℚ
  z : ℚ
deriving DecidableEq, Repr

/-- Componentwise addition of 3D points (numpy broadcasting `+`). -/
def Vec3.add (a b : Vec3) : Vec3 :=
  ⟨a.x + b.x, a.y + b.y, a.z + b.z⟩

/-- The 3D point as a plain coordinate list. -/
def Vec3.toList (v : Vec3) : List ℚ :=
  [v.x, v.y, v.z]

/-- A joint configuration: a vector of joint angles (7 for Baxter). -/
abbrev JointConfig := List ℚ

/-- The kinematic/dynamic model adapter (`self.robot_dynamics`, produced by
`baxter_dynamics`; an external collaborator of the pipeline).
`forward_position_kinematics` returns the full pose vector, position (3)
followed by quaternion orientation (4); `inverse_kinematics` takes a target
position, an orientation and a seed configuration and returns a solution or
signals failure; `inertia` returns the joint-space mass matrix as rows. -/
structure Dynamics where
  forward_position_kinematics : JointConfig → List ℚ
  inverse_kinematics : Vec3 → List ℚ → JointConfig → Option JointConfig
  inertia : JointConfig → List (List ℚ)

/-- The configuration fields of `BaxterWriter` set in `__init__`:
`block_center`, `scale`, `seed_pos` and the derived `seed_pose`. -/
structure BaxterWriter where
  block_center : Vec3
  scale : ℚ
  seed_pos : JointConfig
  seed_pose : List ℚ

/-- The concrete values `BaxterWriter.__init__` stores: center
`[0.844, -0.357, 0.257]`, scale `0.09 / (1.5 + 1.5)`, the fixed right-arm
seed configuration, and `seed_pose` obtained from forward kinematics of the
seed configuration. -/
def mkBaxterWriter (dyn : Dynamics) : BaxterWriter :=
  { block_center := ⟨844/1000, -357/1000, 257/1000⟩
    scale := (9/100) / (15/10 + 15/10)
    seed_pos := [230/100000, -77274/100000, 95529/100000, 153091/100000,
                 -91924/100000, 55914/100000, -9664/100000]
    seed_pose := dyn.forward_position_kinematics
      [230/100000, -77274/100000, 95529/100000, 153091/100000,
       -91924/100000, 55914/100000, -9664/100000] }

/-- Method `generate_spatial_trajectory`: builds a zero matrix of shape `(n, 3)`,
writes `char_traj * scale` into the first two columns, then adds
`block_center` to every row. -/
def generate_spatial_trajectory (w : BaxterWriter) (char_traj : List (ℚ × ℚ)) :
    List Vec3 :=
  char_traj.map (fun p => Vec3.add ⟨p.1 * w.scale, p.2 * w.scale, 0⟩ w.block_center)

/-- The orientation slice `self.seed_pose[3:7]` used by every IK call of
`derive_ik_trajectory`. -/
def orientationOf (w : BaxterWriter) : List ℚ :=
  (w.seed_pose.drop 3).take 4

/-- The loop body of `derive_ik_trajectory` over the enumerated spatial
trajectory: on success the solution is appended and becomes the next seed;
on failure the point is reported (index and position) and the seed is left
unchanged.  Returns the accepted configurations and the failure
diagnostics. -/
def ikLoop (dyn : Dynamics) (ornt : List ℚ) :
    List (Nat × Vec3) → JointConfig → List JointConfig × List (Nat × Vec3)
  | [], _ => ([], [])
  | (idx, pnt) :: rest, q_seed =>
    match dyn.inverse_kinematics pnt ornt q_seed with
    | none =>
      let r := ikLoop dyn ornt rest q_seed
      (r.1, (idx, pnt) :: r.2)
    | some q =>
      let r := ikLoop dyn ornt rest q
      (q :: r.1, r.2)

/-- The sequence of seed configurations passed to the successive IK calls
made by the loop of `derive_ik_trajectory` (one entry per call). -/
def ikSeeds (dyn : Dynamics) (ornt : List ℚ) :
    List (Nat × Vec3) → JointConfig → List JointConfig
  | [], _ => []
  | (_, pnt) :: rest, q_seed =>
    q_seed ::
      (match dyn.inverse_kinematics pnt ornt q_seed with
       | none => ikSeeds dyn ornt rest q_seed
       | some q => ikSeeds dyn ornt rest q)

/-- Method `derive_ik_trajectory`: enumerate the spatial trajectory, start the
warm-start seed at `self.seed_pos`, and run the IK loop.  The first
component is the returned `q_array`; the second is the list of reported
failures (the printed step index and desired position). -/
def derive_ik_trajectory (dyn : Dynamics) (w : BaxterWriter)
    (spatial_traj : List Vec3) : List JointConfig × List (Nat × Vec3) :=
  ikLoop dyn (orientationOf w) spatial_traj.enum w.seed_pos

/-- The method `derive_ik_trajectory` as a state-passing function on the
writer object: the body only reads `self.seed_pos` and `self.seed_pose`
(the warm-start seed `q_seed` is a local variable), so the writer state is
returned unchanged. -/
def derive_ik_trajectory_method (dyn : Dynamics) (w : BaxterWriter)
    (spatial_traj : List Vec3) :
    BaxterWriter × (List JointConfig × List (Nat × Vec3)) :=
  (w, derive_ik_trajectory dyn w spatial_traj)

/-- Componentwise vector subtraction (numpy elementwise `-` on rows). -/
def vecSub (a b : List ℚ) : List ℚ :=
  List.zipWith (fun s t => s - t) a b

/-- Division of a vector by a scalar (numpy `row / dt`). -/
def vecDivByScalar (v : List ℚ) (c : ℚ) : List ℚ :=
  v.map (fun a => a / c)

/-- Numpy `np.diff(rows, axis=0)`: successive row differences, entry `i` equal to
`rows[i+1] - rows[i]`. -/
def npDiff : List (List ℚ) → List (List ℚ)
  | [] => []
  | [_] => []
  | a :: b :: rest => vecSub b a :: npDiff (b :: rest)

/-- Dot product of two coordinate lists. -/
def dotQ (a b : List ℚ) : ℚ :=
  (List.zipWith (fun s t => s * t) a b).sum

/-- Matrix-vector product, the matrix given as a list of rows
(`jnt_mass.dot(u)`). -/
def matVec (m : List (List ℚ)) (u : List ℚ) : List ℚ :=
  m.map (fun row => dotQ row u)

/-- Squared Euclidean norm, `np.linalg.norm(v) ** 2`. -/
def sqNorm (v : List ℚ) : ℚ :=
  (v.map (fun a => a * a)).sum

/-- The anisotropic tracking weights `np.array([10., 10., 50])` of the
stage cost. -/
def costWeights : List ℚ :=
  [10, 10, 50]

/-- The stage cost closure `traj_cost` of `derive_ilqr_trajectory`:
tracking error is the squared norm of the componentwise product of
`cart_pose[0:3] - spatial_traj[t]` with the weights; control effort is the
squared norm of `jnt_mass.dot(u)`; the total is
`track_err + R * ctrl_effort`. -/
def traj_cost (dyn : Dynamics) (R : ℚ) (spatial_traj : List Vec3)
    (x u : List ℚ) (t : Nat) : ℚ :=
  let cart_pose := dyn.forward_position_kinematics (x.take 7)
  let diff := vecSub (cart_pose.take 3) ((spatial_traj.getD t ⟨0, 0, 0⟩).toList)
  let track_err := sqNorm (List.zipWith (fun a b => a * b) diff costWeights)
  let jnt_mass := dyn.inertia (x.take 7)
  let tau := matVec jnt_mass u
  let ctrl_effort := sqNorm tau
  track_err + R * ctrl_effort

/-- The scalar parameters `derive_ilqr_trajectory` fixes and hands to the
iLQR engine: `PyLQR_TrajCtrl(R=.01, dt=dt)` with `dt = .01`,
`build_ilqr_general_solver(cost_func=traj_cost, n_dims=7, T=100)` and
`synthesize_trajectory(..., n_itrs=25)`. -/
structure ILQRSetup where
  R : ℚ
  dt : ℚ
  n_dims : Nat
  T : Nat
  n_itrs : Nat
deriving DecidableEq, Repr

/-- The setup record built by `derive_ilqr_trajectory` for a given spatial
trajectory.  The horizon `T` is the literal `100` of the source, written
independently of the input trajectory. -/
def ilqr_setup (_spatial_traj : List Vec3) : ILQRSetup :=
  { R := 1/100, dt := 1/100, n_dims := 7, T := 100, n_itrs := 25 }

/-- Modelled from the spec: the iLQR solver engine (`pylqr`, an external
collaborator whose source is not under src/) runs on the state
`[joint positions; joint velocities]`, so its state dimension is twice the
`n_dims` it is built with. -/
def ILQRSetup.state_dim (s : ILQRSetup) : Nat :=
  2 * s.n_dims

/-- The control dimension of the solver invocation: the `n_dims` joint
accelerations. -/
def ILQRSetup.control_dim (s : ILQRSetup) : Nat :=
  s.n_dims

/-- The stage cost signature handed to the solver: state, control and
timestep to a scalar. -/
abbrev CostFun := List ℚ → List ℚ → Nat → ℚ

/-- The abstract iLQR solver engine (`synthesize_trajectory` of the
configured `PyLQR_TrajCtrl`): given the setup, the stage cost, the initial
state positions and the initial control sequence, it returns the state
trajectory (rows of dimension `state_dim`). -/
abbrev Solver := ILQRSetup → CostFun → List ℚ → List (List ℚ) → List (List ℚ)

/-- The finite-difference joint velocities of `derive_ilqr_trajectory`:
`np.diff(q_ik, axis=0) / dt` with a zero row stacked on top
(`np.vstack([np.zeros(7), q_dot_ik])`). -/
def ilqr_q_dot (q_ik : List (List ℚ)) (dt : ℚ) : List (List ℚ) :=
  List.replicate 7 (0 : ℚ) :: (npDiff q_ik).map (fun v => vecDivByScalar v dt)

/-- The initial control sequence of `derive_ilqr_trajectory`:
`np.diff(q_dot_ik, axis=0) / dt`. -/
def ilqr_u_init (q_ik : List (List ℚ)) (dt : ℚ) : List (List ℚ) :=
  (npDiff (ilqr_q_dot q_ik dt)).map (fun v => vecDivByScalar v dt)

/-- Method `derive_ilqr_trajectory`: configure the solver, derive the IK joint
trajectory on the same spatial path and writer seed, build the initial
control guess by finite differencing, synthesize, and keep the first 7
components (joint positions) of every returned state row. -/
def derive_ilqr_trajectory (dyn : Dynamics) (solve : Solver)
    (w : BaxterWriter) (spatial_traj : List Vec3) : List (List ℚ) :=
  let s := ilqr_setup spatial_traj
  let q_ik := (derive_ik_trajectory dyn w spatial_traj).1
  let x0 := q_ik.headI
  let u_array_init := ilqr_u_init q_ik s.dt
  let syn_traj := solve s (traj_cost dyn s.R spatial_traj) x0 u_array_init
  syn_traj.map (fun row => row.take 7)

/-- The RBF function approximator (`PyRBF_FunctionApproximator`, an
external collaborator): `fit` maps a time axis and a value series to a
parameter vector; `evalAt` evaluates a parameter vector at one time
point. -/
structure FuncApprox where
  fit : List ℚ → List ℚ → List ℚ
  evalAt : List ℚ → ℚ → ℚ

/-- Modelled from the spec: `evaluate(timeAxis, parameterVector) ->
valueSeries` of the external function approximator produces one value per
time point of the axis (the engine itself is not under src/). -/
def FuncApprox.evaluate (fa : FuncApprox) (z : List ℚ) (parm : List ℚ) :
    List ℚ :=
  z.map (fa.evalAt parm)

/-- A default approximator, used only as the out-of-range default of list
indexing in theorem statements. -/
def dfltFA : FuncApprox :=
  { fit := fun _ _ => [], evalAt := fun _ _ => 0 }

/-- Numpy `np.linspace(0.0, 1.0, n)`: `n` evenly spaced points from 0 to 1, both
endpoints included (for `n = 1` numpy returns `[0.0]`). -/
def linspace01 (n : Nat) : List ℚ :=
  if n ≤ 1 then List.replicate n 0
  else (List.range n).map (fun i : Nat => (i : ℚ) / ((n : ℚ) - 1))

/-- Transpose of a rectangular row-major array (numpy `.T` on a 2D
array): column `j` of the input becomes row `j` of the output. -/
def npT (rows : List (List ℚ)) : List (List ℚ) :=
  (List.range rows.headI.length).map (fun j => rows.map (fun r => r.getD j 0))

/-- The fixed evaluation axis `self.eval_z = np.linspace(0.0, 1.0, 100)`
set once in `prepare_manipulator_function_approximators`. -/
def eval_z : List ℚ :=
  linspace01 100

/-- Method `derive_fa_parms_from_jnt_traj`: sample the normalized axis at the
trajectory length, and fit each transposed joint series with its own
approximator. -/
def derive_fa_parms_from_jnt_traj (fas : List FuncApprox)
    (q_array : List (List ℚ)) : List (List ℚ) :=
  let z := linspace01 q_array.length
  (List.zip (npT q_array) fas).map (fun qf => qf.2.fit z qf.1)

/-- Method `derive_jnt_traj_from_fa_parms`: evaluate each parameter vector on the
fixed axis `eval_z` with its approximator, stack the per-joint series as
rows and transpose. -/
def derive_jnt_traj_from_fa_parms (fas : List FuncApprox)
    (fa_parms : List (List ℚ)) : List (List ℚ) :=
  npT ((List.zip fa_parms fas).map (fun pf => pf.2.evaluate eval_z pf.1))

/-! ### Concrete test fixtures (synthetic adapters and paths) -/

/-- A synthetic kinematic adapter whose IK fails exactly on targets with
first coordinate 3 and otherwise conses the target coordinate onto the
seed. -/
def failAt3Dyn : Dynamics :=
  { forward_position_kinematics := fun q => q
    inverse_kinematics := fun pnt _ seed =>
      if pnt.x = 3 then none else some (pnt.x :: seed)
    inertia := fun _ => [] }

/-- A synthetic kinematic adapter whose IK always succeeds. -/
def okDyn : Dynamics :=
  { forward_position_kinematics := fun q => q
    inverse_kinematics := fun pnt _ seed => some (pnt.x :: seed)
    inertia := fun _ => [] }

/-- A writer with simple configuration values, for concrete evaluation. -/
def testWriter : BaxterWriter :=
  { block_center := ⟨0, 0, 0⟩
    scale := 1
    seed_pos := List.replicate 7 0
    seed_pose := [0, 0, 0, 0, 0, 0, 1] }

/-- A 10-point spatial path whose point at index `i` has first coordinate
`i`, so `failAt3Dyn` fails exactly at index 3. -/
def tenPointPath : List Vec3 :=
  (List.range 10).map (fun i => ⟨(i : ℚ), 0, 0⟩)

/-- A 3-point spatial path on which `okDyn` never fails. -/
def threePointPath : List Vec3 :=
  [⟨1, 0, 0⟩, ⟨2, 0, 0⟩, ⟨5, 0, 0⟩]

/-- A 5-point spatial path, shorter than the hard-coded solver horizon. -/
def fivePointPath : List Vec3 :=
  List.replicate 5 ⟨0, 0, 0⟩

/-! ### Helper lemmas on the IK loop -/

theorem ikLoop_length (dyn : Dynamics) (ornt : List ℚ) (l : List (Nat × Vec3)) :
    ∀ s : JointConfig,
      (ikLoop dyn ornt l s).1.length + (ikLoop dyn ornt l s).2.length
        = l.length := by
  induction l with
  | nil => intro s; rfl
  | cons p rest ih =>
    intro s
    obtain ⟨idx, pnt⟩ := p
    cases h : dyn.inverse_kinematics pnt ornt s with
    | none =>
      have := ih s
      simp only [ikLoop, h, List.length_cons]
      omega
    | some q =>
      have := ih q
      simp only [ikLoop, h, List.length_cons]
      omega

theorem ikSeeds_length (dyn : Dynamics) (ornt : List ℚ) (l : List (Nat × Vec3)) :
    ∀ s : JointConfig, (ikSeeds dyn ornt l s).length = l.length := by
  induction l with
  | nil => intro s; rfl
  | cons p rest ih =>
    intro s
    obtain ⟨idx, pnt⟩ := p
    cases h : dyn.inverse_kinematics pnt ornt s with
    | none => simp only [ikSeeds, h, List.length_cons, ih s]
    | some q => simp only [ikSeeds, h, List.length_cons, ih q]

theorem ikSeeds_cons_getD_zero (dyn : Dynamics) (ornt : List ℚ)
    (p : Nat × Vec3) (rest : List (Nat × Vec3)) (s : JointConfig) :
    (ikSeeds dyn ornt (p :: rest) s).getD 0 [] = s := by
  obtain ⟨idx, pnt⟩ := p
  cases h : dyn.inverse_kinematics pnt ornt s <;> simp [ikSeeds, h]

/-- One step of the warm-start chain: the seed of call `i + 1` is the
solution of call `i` when that call succeeded, and the unchanged seed of
call `i` when it failed. -/
theorem ikSeeds_getD_succ (dyn : Dynamics) (ornt : List ℚ)
    (l : List (Nat × Vec3)) :
    ∀ (s : JointConfig) (i : Nat), i + 1 < l.length →
      (ikSeeds dyn ornt l s).getD (i + 1) []
        = (dyn.inverse_kinematics (l.getD i (0, ⟨0, 0, 0⟩)).2 ornt
            ((ikSeeds dyn ornt l s).getD i [])).getD
            ((ikSeeds dyn ornt l s).getD i []) := by
  induction l with
  | nil => intro s i hi; simp at hi
  | cons p rest ih =>
    intro s i hi
    obtain ⟨idx, pnt⟩ := p
    cases i with
    | zero =>
      obtain ⟨a, r, rfl⟩ : ∃ a r, rest = a :: r := by
        cases rest with
        | nil => simp at hi
        | cons a r => exact ⟨a, r, rfl⟩
      cases h : dyn.inverse_kinematics pnt ornt s with
      | none =>
        simp only [ikSeeds, h, List.getD_cons_succ, List.getD_cons_zero,
          Option.getD_none]
      | some q =>
        simp only [ikSeeds, h, List.getD_cons_succ, List.getD_cons_zero,
          Option.getD_some]
    | succ j =>
      have hj : j + 1 < rest.length := by
        simpa [List.length_cons] using hi
      cases h : dyn.inverse_kinematics pnt ornt s with
      | none =>
        simp only [ikSeeds, h, List.getD_cons_succ]
        exact ih s j hj
      | some q =>
        simp only [ikSeeds, h, List.getD_cons_succ]
        exact ih q j hj

/-- On a run with no reported failure, the seed of call `i + 1` is the
accepted solution of call `i`. -/
theorem ikSeeds_noFail (dyn : Dynamics) (ornt : List ℚ)
    (l : List (Nat × Vec3)) :
    ∀ s : JointConfig, (ikLoop dyn ornt l s).2 = [] →
      ∀ i, i + 1 < l.length →
        (ikSeeds dyn ornt l s).getD (i + 1) []
          = (ikLoop dyn ornt l s).1.getD i [] := by
  induction l with
  | nil => intro s _ i hi; simp at hi
  | cons p rest ih =>
    intro s hnf i hi
    obtain ⟨idx, pnt⟩ := p
    cases h : dyn.inverse_kinematics pnt ornt s with
    | none =>
      exfalso
      simp only [ikLoop, h] at hnf
      exact List.cons_ne_nil _ _ hnf
    | some q =>
      have hnf2 : (ikLoop dyn ornt rest q).2 = [] := by
        simpa [ikLoop, h] using hnf
      cases i with
      | zero =>
        obtain ⟨a, r, rfl⟩ : ∃ a r, rest = a :: r := by
          cases rest with
          | nil => simp at hi
          | cons a r => exact ⟨a, r, rfl⟩
        simp only [ikSeeds, ikLoop, h, List.getD_cons_succ, List.getD_cons_zero]
      | succ j =>
        have hj : j + 1 < rest.length := by
          simpa [List.length_cons] using hi
        simp only [ikSeeds, ikLoop, h, List.getD_cons_succ]
        exact ih q hnf2 j hj

/-! ### Helper lemmas on squared norms -/

theorem sqNorm_nil : sqNorm [] = 0 := rfl

theorem sqNorm_cons (a : ℚ) (l : List ℚ) :
    sqNorm (a :: l) = a * a + sqNorm l := by
  simp [sqNorm]

theorem sqNorm_nonneg (v : List ℚ) : 0 ≤ sqNorm v := by
  induction v with
  | nil => simp [sqNorm_nil]
  | cons a l ih =>
    rw [sqNorm_cons]
    have := mul_self_nonneg a
    linarith

theorem sqNorm_eq_zero_iff (v : List ℚ) :
    sqNorm v = 0 ↔ ∀ a ∈ v, a = 0 := by
  induction v with
  | nil => simp [sqNorm_nil]
  | cons a l ih =>
    rw [sqNorm_cons,
      add_eq_zero_iff_of_nonneg (mul_self_nonneg a) (sqNorm_nonneg l),
      mul_self_eq_zero, ih]
    simp

/-- The weighted tracking error vanishes exactly when the computed
position coincides with the target componentwise (the weights 10, 10, 50
are nonzero). -/
theorem weighted_track_eq_zero_iff (c0 c1 c2 px py pz : ℚ) :
    sqNorm (List.zipWith (fun a b => a * b) (vecSub [c0, c1, c2] [px, py, pz])
      costWeights) = 0 ↔ (c0 = px ∧ c1 = py ∧ c2 = pz) := by
  have hz : List.zipWith (fun a b => a * b) (vecSub [c0, c1, c2] [px, py, pz])
      costWeights = [(c0 - px) * 10, (c1 - py) * 10, (c2 - pz) * 50] := rfl
  rw [hz, sqNorm_eq_zero_iff]
  constructor
  · intro hall
    have h1 := hall ((c0 - px) * 10) (by simp)
    have h2 := hall ((c1 - py) * 10) (by simp)
    have h3 := hall ((c2 - pz) * 50) (by simp)
    refine ⟨by linarith, by linarith, by linarith⟩
  · rintro ⟨rfl, rfl, rfl⟩
    intro a ha
    simp at ha
    exact ha

/-! ### Claim theorems -/

/-- C6: for every planar trajectory and every 2D point `(x, y)` in it,
`generate_spatial_trajectory` produces at the corresponding index exactly
`(x * scale, y * scale, 0) + blockCenter`; the function is a total map and
the output trajectory has the same length as the input. -/
theorem claim_C6_spatial_mapping (w : BaxterWriter)
    (char_traj : List (ℚ × ℚ)) :
    (generate_spatial_trajectory w char_traj).length = char_traj.length ∧
    ∀ i, i < char_traj.length →
      (generate_spatial_trajectory w char_traj).getD i ⟨0, 0, 0⟩
        = Vec3.add ⟨(char_traj.getD i (0, 0)).1 * w.scale,
            (char_traj.getD i (0, 0)).2 * w.scale, 0⟩ w.block_center := by
  constructor
  · simp [generate_spatial_trajectory]
  · intro i hi
    simp [generate_spatial_trajectory, List.getD_eq_getElem?_getD,
      List.getElem?_map, List.getElem?_eq_getElem hi]

theorem claim_C6_witness :
    (generate_spatial_trajectory testWriter [(1, 2)]).getD 0 ⟨0, 0, 0⟩
      = Vec3.add ⟨1 * testWriter.scale, 2 * testWriter.scale, 0⟩
          testWriter.block_center :=
  (claim_C6_spatial_mapping testWriter [(1, 2)]).2 0 (by decide)

/-- C1: a failed IK solve is skipped: the returned trajectory length is
the input length minus the number of reported failures, a failed solve
leaves the warm-start seed unchanged, and on the synthetic adapter that
fails exactly at index 3 of a 10-point path the result has length 9 with
diagnostic index set `{3}`. -/
theorem claim_C1_ik_skip_and_continue :
    (∀ (dyn : Dynamics) (w : BaxterWriter) (traj : List Vec3),
      (derive_ik_trajectory dyn w traj).1.length
        = traj.length - (derive_ik_trajectory dyn w traj).2.length) ∧
    (∀ (dyn : Dynamics) (ornt : List ℚ) (l : List (Nat × Vec3))
        (s : JointConfig) (i : Nat), i + 1 < l.length →
      dyn.inverse_kinematics (l.getD i (0, ⟨0, 0, 0⟩)).2 ornt
          ((ikSeeds dyn ornt l s).getD i []) = none →
      (ikSeeds dyn ornt l s).getD (i + 1) []
        = (ikSeeds dyn ornt l s).getD i []) ∧
    ((derive_ik_trajectory failAt3Dyn testWriter tenPointPath).1.length = 9 ∧
      (derive_ik_trajectory failAt3Dyn testWriter tenPointPath).2.map
        Prod.fst = [3]) := by
  refine ⟨?_, ?_, ?_, ?_⟩
  · intro dyn w traj
    have h := ikLoop_length dyn (orientationOf w) traj.enum w.seed_pos
    have he : traj.enum.length = traj.length := List.enum_length
    simp only [derive_ik_trajectory]
    omega
  · intro dyn ornt l s i hi hfail
    have h := ikSeeds_getD_succ dyn ornt l s i hi
    rw [hfail] at h
    simpa using h
  · decide
  · decide

theorem claim_C1_witness :
    (ikSeeds failAt3Dyn (orientationOf testWriter) tenPointPath.enum
        testWriter.seed_pos).getD 4 []
      = (ikSeeds failAt3Dyn (orientationOf testWriter) tenPointPath.enum
          testWriter.seed_pos).getD 3 [] :=
  claim_C1_ik_skip_and_continue.2.1 failAt3Dyn (orientationOf testWriter)
    tenPointPath.enum testWriter.seed_pos 3 (by decide) (by decide)

/-- C2: the first IK solve of `derive_ik_trajectory` is seeded from the
writer default seed configuration `seed_pos`, and on a run with no failed
solve the seed of call `i + 1` is the solution accepted at call `i`. -/
theorem claim_C2_warm_start (dyn : Dynamics) (w : BaxterWriter)
    (traj : List Vec3) :
    (traj ≠ [] →
      (ikSeeds dyn (orientationOf w) traj.enum w.seed_pos).getD 0 []
        = w.seed_pos) ∧
    ((derive_ik_trajectory dyn w traj).2 = [] →
      ∀ i, i + 1 < traj.length →
        (ikSeeds dyn (orientationOf w) traj.enum w.seed_pos).getD (i + 1) []
          = (derive_ik_trajectory dyn w traj).1.getD i []) := by
  constructor
  · intro hne
    cases htraj : traj.enum with
    | nil =>
      exfalso
      apply hne
      cases traj with
      | nil => rfl
      | cons a r => simp [List.enum] at htraj
    | cons p rest =>
      exact ikSeeds_cons_getD_zero dyn (orientationOf w) p rest w.seed_pos
  · intro hnf i hi
    have he : traj.enum.length = traj.length := List.enum_length
    exact ikSeeds_noFail dyn (orientationOf w) traj.enum w.seed_pos hnf i
      (by omega)

theorem claim_C2_witness :
    ((ikSeeds okDyn (orientationOf testWriter) threePointPath.enum
        testWriter.seed_pos).getD 0 [] = testWriter.seed_pos) ∧
    ((ikSeeds okDyn (orientationOf testWriter) threePointPath.enum
        testWriter.seed_pos).getD 1 []
      = (derive_ik_trajectory okDyn testWriter threePointPath).1.getD 0 []) :=
  ⟨(claim_C2_warm_start okDyn testWriter threePointPath).1 (by decide),
   (claim_C2_warm_start okDyn testWriter threePointPath).2 (by decide) 0
     (by decide)⟩

/-- C3 counterexample: on a 5-point spatial trajectory the solver is still
built with the hard-coded horizon `T = 100`, which differs from the number
of points. -/
theorem claim_C3_counterexample :
    (ilqr_setup fivePointPath).T ≠ fivePointPath.length := by
  decide

/-- C3 (amended): `derive_ilqr_trajectory` invokes the optimal-control
solver with a fixed horizon of 100 regardless of the number of points in
the spatial trajectory (state dimension 14 = 2 times 7, control dimension
7); the horizon equals the trajectory length only when that length is
exactly 100. -/
theorem claim_C3_amended (traj : List Vec3) :
    (ilqr_setup traj).T = 100 ∧ (ilqr_setup traj).control_dim = 7 ∧
    (ilqr_setup traj).state_dim = 14 :=
  ⟨rfl, rfl, rfl⟩

/-- C8 counterexample: the degenerate empty path is not rejected by any
structural validation: the spatial mapper returns an empty trajectory, the
IK builder returns an empty trajectory with empty diagnostics and performs
no IK call, and no error is raised anywhere. -/
theorem claim_C8_counterexample :
    generate_spatial_trajectory testWriter [] = ([] : List Vec3) ∧
    derive_ik_trajectory failAt3Dyn testWriter
      (generate_spatial_trajectory testWriter []) = ([], []) ∧
    ikSeeds failAt3Dyn (orientationOf testWriter)
      (generate_spatial_trajectory testWriter []).enum testWriter.seed_pos
      = [] :=
  ⟨rfl, rfl, rfl⟩

/-- C8 (amended): the pipeline performs no structural validation of its
input: for every writer and adapter, a degenerate empty path flows through
without any error, producing an empty spatial trajectory, an empty joint
trajectory with empty diagnostics and no IK call. -/
theorem claim_C8_amended (dyn : Dynamics) (w : BaxterWriter) :
    generate_spatial_trajectory w [] = ([] : List Vec3) ∧
    derive_ik_trajectory dyn w [] = ([], []) ∧
    ikSeeds dyn (orientationOf w) (([] : List Vec3)).enum w.seed_pos = [] :=
  ⟨rfl, rfl, rfl⟩

/-- C10: `derive_ik_trajectory` leaves the writer configuration unchanged
(`seed_pos`, `seed_pose`, `scale`, `block_center` identical before and
after), so a second invocation runs the same IK computation, with the same
seed chain, as it would on the original writer. -/
theorem claim_C10_frame (dyn : Dynamics) (w : BaxterWriter)
    (t1 t2 : List Vec3) :
    (derive_ik_trajectory_method dyn w t1).1 = w ∧
    (derive_ik_trajectory_method dyn w t1).1.seed_pos = w.seed_pos ∧
    (derive_ik_trajectory_method dyn w t1).1.seed_pose = w.seed_pose ∧
    (derive_ik_trajectory_method dyn w t1).1.scale = w.scale ∧
    (derive_ik_trajectory_method dyn w t1).1.block_center = w.block_center ∧
    derive_ik_trajectory dyn ((derive_ik_trajectory_method dyn w t1).1) t2
      = derive_ik_trajectory dyn w t2 ∧
    ikSeeds dyn (orientationOf ((derive_ik_trajectory_method dyn w t1).1))
        t2.enum ((derive_ik_trajectory_method dyn w t1).1).seed_pos
      = ikSeeds dyn (orientationOf w) t2.enum w.seed_pos :=
  ⟨rfl, rfl, rfl, rfl, rfl, rfl, rfl⟩

/-- C4: the stage cost `traj_cost` equals the weighted squared tracking
error plus the fixed scalar `R` times the squared norm of the mass matrix
applied to the control; with the R of the source it is nonnegative, and it
is zero exactly when the forward-kinematics position of the position
sub-vector of the state matches the target at `t` and the effort term is
zero. -/
theorem claim_C4_cost_nonneg (dyn : Dynamics) (traj : List Vec3)
    (x u : List ℚ) (t : Nat)
    (h3 : 3 ≤ (dyn.forward_position_kinematics (x.take 7)).length) :
    (∀ R : ℚ, traj_cost dyn R traj x u t
      = sqNorm (List.zipWith (fun a b => a * b)
          (vecSub ((dyn.forward_position_kinematics (x.take 7)).take 3)
            ((traj.getD t ⟨0, 0, 0⟩).toList)) costWeights)
        + R * sqNorm (matVec (dyn.inertia (x.take 7)) u)) ∧
    0 ≤ traj_cost dyn ((ilqr_setup traj).R) traj x u t ∧
    (traj_cost dyn ((ilqr_setup traj).R) traj x u t = 0 ↔
      ((dyn.forward_position_kinematics (x.take 7)).take 3
          = (traj.getD t ⟨0, 0, 0⟩).toList ∧
        sqNorm (matVec (dyn.inertia (x.take 7)) u) = 0)) := by
  obtain ⟨c0, c1, c2, rest, hc⟩ : ∃ c0 c1 c2 rest,
      dyn.forward_position_kinematics (x.take 7) = c0 :: c1 :: c2 :: rest := by
    rcases hL : dyn.forward_position_kinematics (x.take 7) with
      _ | ⟨a, _ | ⟨b, _ | ⟨c, r⟩⟩⟩
    · rw [hL] at h3; simp at h3
    · rw [hL] at h3; simp at h3
    · rw [hL] at h3; simp at h3
    · exact ⟨a, b, c, r, rfl⟩
  have hunfold : traj_cost dyn ((ilqr_setup traj).R) traj x u t
      = sqNorm (List.zipWith (fun a b => a * b)
          (vecSub ((dyn.forward_position_kinematics (x.take 7)).take 3)
            ((traj.getD t ⟨0, 0, 0⟩).toList)) costWeights)
        + (1/100) * sqNorm (matVec (dyn.inertia (x.take 7)) u) := rfl
  have htake : (dyn.forward_position_kinematics (x.take 7)).take 3
      = [c0, c1, c2] := by
    rw [hc]
    rfl
  have hlist : (traj.getD t ⟨0, 0, 0⟩).toList
      = [(traj.getD t ⟨0, 0, 0⟩).x, (traj.getD t ⟨0, 0, 0⟩).y,
         (traj.getD t ⟨0, 0, 0⟩).z] := rfl
  refine ⟨fun R => rfl, ?_, ?_⟩
  · rw [hunfold]
    have h1 := sqNorm_nonneg (List.zipWith (fun a b => a * b)
        (vecSub ((dyn.forward_position_kinematics (x.take 7)).take 3)
          ((traj.getD t ⟨0, 0, 0⟩).toList)) costWeights)
    have h2 := sqNorm_nonneg (matVec (dyn.inertia (x.take 7)) u)
    linarith
  · rw [hunfold, htake, hlist,
      add_eq_zero_iff_of_nonneg (sqNorm_nonneg _)
        (mul_nonneg (by norm_num) (sqNorm_nonneg _)),
      weighted_track_eq_zero_iff]
    constructor
    · rintro ⟨⟨e1, e2, e3⟩, hE2⟩
      refine ⟨by rw [e1, e2, e3], by linarith⟩
    · rintro ⟨hEq, hE0⟩
      simp only [List.cons.injEq, and_true] at hEq
      exact ⟨⟨hEq.1, hEq.2.1, hEq.2.2⟩, by rw [hE0]; ring⟩

theorem claim_C4_witness :
    0 ≤ traj_cost okDyn ((ilqr_setup threePointPath).R) threePointPath
        [1, 2, 3, 0, 0, 0, 0] [] 0 :=
  (claim_C4_cost_nonneg okDyn threePointPath [1, 2, 3, 0, 0, 0, 0] [] 0
    (by decide)).2.1

/-! ### Helper lemmas on finite differences -/

theorem npDiff_length (l : List (List ℚ)) :
    (npDiff l).length = l.length - 1 := by
  induction l with
  | nil => rfl
  | cons a rest ih =>
    cases rest with
    | nil => rfl
    | cons b r =>
      simp only [npDiff, List.length_cons] at ih ⊢
      omega

theorem npDiff_getD (l : List (List ℚ)) :
    ∀ i, i + 1 < l.length →
      (npDiff l).getD i [] = vecSub (l.getD (i + 1) []) (l.getD i []) := by
  induction l with
  | nil => intro i hi; simp at hi
  | cons a rest ih =>
    intro i hi
    cases rest with
    | nil => simp at hi
    | cons b r =>
      cases i with
      | zero => simp [npDiff]
      | succ j =>
        have hj : j + 1 < (b :: r).length := by
          simpa [List.length_cons] using hi
        simp only [npDiff, List.getD_cons_succ]
        exact ih j hj

theorem getD_map_of_lt {α β : Type} (f : α → β) (l : List α) (i : Nat)
    (d : β) (d2 : α) (h : i < l.length) :
    (l.map f).getD i d = f (l.getD i d2) := by
  rw [List.getD_eq_getElem?_getD, List.getElem?_map,
    List.getElem?_eq_getElem h]
  simp [List.getD_eq_getElem?_getD, List.getElem?_eq_getElem h]

/-- A trivial concrete solver engine, for witnesses. -/
def nilSolver : Solver := fun _ _ _ _ => []

/-- C5: the initial control sequence of `derive_ilqr_trajectory` is built
from the IK joint trajectory on the same path and seed: the velocity
sequence starts with a zero row and continues with finite differences of
adjacent configurations divided by the timestep, the control sequence is
the finite difference of those velocities divided by the timestep, and the
returned trajectory is exactly the first 7 components of each state row
the solver returns. -/
theorem claim_C5_ilqr_seed_and_output (dyn : Dynamics) (solve : Solver)
    (w : BaxterWriter) (traj : List Vec3) :
    (∀ (q : List (List ℚ)) (dt : ℚ),
      (ilqr_q_dot q dt).getD 0 [] = List.replicate 7 0) ∧
    (∀ (q : List (List ℚ)) (dt : ℚ) (i : Nat), i + 1 < q.length →
      (ilqr_q_dot q dt).getD (i + 1) []
        = vecDivByScalar (vecSub (q.getD (i + 1) []) (q.getD i [])) dt) ∧
    (∀ (q : List (List ℚ)) (dt : ℚ) (i : Nat),
        i + 1 < (ilqr_q_dot q dt).length →
      (ilqr_u_init q dt).getD i []
        = vecDivByScalar (vecSub ((ilqr_q_dot q dt).getD (i + 1) [])
            ((ilqr_q_dot q dt).getD i [])) dt) ∧
    derive_ilqr_trajectory dyn solve w traj
      = (solve (ilqr_setup traj)
          (traj_cost dyn (ilqr_setup traj).R traj)
          ((derive_ik_trajectory dyn w traj).1).headI
          (ilqr_u_init (derive_ik_trajectory dyn w traj).1
            (ilqr_setup traj).dt)).map (fun row => row.take 7) := by
  refine ⟨fun q dt => rfl, ?_, ?_, rfl⟩
  · intro q dt i hi
    have hlen : i < (npDiff q).length := by
      rw [npDiff_length]; omega
    calc (ilqr_q_dot q dt).getD (i + 1) []
        = ((npDiff q).map (fun v => vecDivByScalar v dt)).getD i [] := by
          simp [ilqr_q_dot]
      _ = vecDivByScalar ((npDiff q).getD i []) dt :=
          getD_map_of_lt _ _ _ _ [] hlen
      _ = vecDivByScalar (vecSub (q.getD (i + 1) []) (q.getD i [])) dt := by
          rw [npDiff_getD q i hi]
  · intro q dt i hi
    have hlen : i < (npDiff (ilqr_q_dot q dt)).length := by
      rw [npDiff_length]; omega
    calc (ilqr_u_init q dt).getD i []
        = vecDivByScalar ((npDiff (ilqr_q_dot q dt)).getD i []) dt :=
          getD_map_of_lt _ _ _ _ [] hlen
      _ = vecDivByScalar (vecSub ((ilqr_q_dot q dt).getD (i + 1) [])
            ((ilqr_q_dot q dt).getD i [])) dt := by
          rw [npDiff_getD (ilqr_q_dot q dt) i hi]

theorem claim_C5_witness :
    (ilqr_q_dot [[(1 : ℚ)], [2]] (1/100)).getD 1 []
      = vecDivByScalar
          (vecSub (([[(1 : ℚ)], [2]]).getD 1 []) (([[(1 : ℚ)], [2]]).getD 0 []))
          (1/100) :=
  (claim_C5_ilqr_seed_and_output okDyn nilSolver testWriter
    threePointPath).2.1 [[(1 : ℚ)], [2]] (1/100) 0 (by decide)

/-! ### Helper lemmas for the codec -/

theorem zip_getD {α β : Type} (a : List α) (b : List β) (j : Nat) (da : α)
    (db : β) (h1 : j < a.length) (h2 : j < b.length) :
    (a.zip b).getD j (da, db) = (a.getD j da, b.getD j db) := by
  have hz : j < (a.zip b).length := by rw [List.length_zip]; omega
  rw [List.getD_eq_getElem?_getD, List.getElem?_eq_getElem hz, Option.getD_some,
    List.getElem_zip, List.getD_eq_getElem?_getD, List.getElem?_eq_getElem h1,
    List.getD_eq_getElem?_getD, List.getElem?_eq_getElem h2]
  rfl

theorem linspace01_length (n : Nat) : (linspace01 n).length = n := by
  unfold linspace01
  split
  · rw [List.length_replicate]
  · rw [List.length_map, List.length_range]

theorem linspace01_mem (n : Nat) (q : ℚ) (hq : q ∈ linspace01 n) :
    0 ≤ q ∧ q ≤ 1 := by
  by_cases h : n ≤ 1
  · rw [linspace01, if_pos h] at hq
    rw [List.eq_of_mem_replicate hq]
    norm_num
  · rw [linspace01, if_neg h] at hq
    rw [List.mem_map] at hq
    obtain ⟨i, hi0, rfl⟩ := hq
    rw [List.mem_range] at hi0
    have hn : 2 ≤ n := by omega
    have hnq : (2 : ℚ) ≤ (n : ℚ) := by exact_mod_cast hn
    have hiq : (i : ℚ) + 1 ≤ (n : ℚ) := by exact_mod_cast hi0
    constructor
    · exact div_nonneg (Nat.cast_nonneg i) (by linarith)
    · rw [div_le_one (by linarith)]
      linarith

theorem npT_length (rows : List (List ℚ)) :
    (npT rows).length = rows.headI.length := by
  simp [npT]

theorem npT_getD (rows : List (List ℚ)) (j : Nat)
    (hj : j < rows.headI.length) :
    (npT rows).getD j [] = rows.map (fun r => r.getD j 0) := by
  have hjr : (List.range rows.headI.length).getD j 0 = j := by
    rw [List.getD_eq_getElem?_getD, List.getElem?_eq_getElem (by simpa using hj)]
    simp
  unfold npT
  rw [getD_map_of_lt _ _ _ _ 0 (by simpa using hj), hjr]

theorem encode_length (fas : List FuncApprox) (q_array : List (List ℚ)) :
    (derive_fa_parms_from_jnt_traj fas q_array).length
      = min q_array.headI.length fas.length := by
  unfold derive_fa_parms_from_jnt_traj
  rw [List.length_map, List.length_zip, npT_length]

theorem derive_jnt_traj_length (fas : List FuncApprox)
    (fa_parms : List (List ℚ)) (hp : fa_parms ≠ []) (hf : fas ≠ []) :
    (derive_jnt_traj_from_fa_parms fas fa_parms).length = 100 := by
  obtain ⟨p, ps, rfl⟩ := List.exists_cons_of_ne_nil hp
  obtain ⟨f, fs, rfl⟩ := List.exists_cons_of_ne_nil hf
  unfold derive_jnt_traj_from_fa_parms
  rw [npT_length]
  simp [FuncApprox.evaluate, eval_z, linspace01_length]

theorem derive_jnt_traj_getD (fas : List FuncApprox)
    (fa_parms : List (List ℚ)) (t j : Nat) (ht : t < 100)
    (hj1 : j < fa_parms.length) (hj2 : j < fas.length) :
    ((derive_jnt_traj_from_fa_parms fas fa_parms).getD t []).getD j 0
      = (fas.getD j dfltFA).evalAt (fa_parms.getD j []) (eval_z.getD t 0) := by
  have hp : fa_parms ≠ [] := by
    intro h; rw [h] at hj1; simp at hj1
  have hf : fas ≠ [] := by
    intro h; rw [h] at hj2; simp at hj2
  have hhead : ((fa_parms.zip fas).map
      (fun pf : List ℚ × FuncApprox => pf.2.evaluate eval_z pf.1)).headI.length
        = 100 := by
    obtain ⟨p, ps, rfl⟩ := List.exists_cons_of_ne_nil hp
    obtain ⟨f, fs, rfl⟩ := List.exists_cons_of_ne_nil hf
    simp [FuncApprox.evaluate, eval_z, linspace01_length]
  have hzlen : j < ((fa_parms.zip fas).map
      (fun pf : List ℚ × FuncApprox => pf.2.evaluate eval_z pf.1)).length := by
    rw [List.length_map, List.length_zip]; omega
  unfold derive_jnt_traj_from_fa_parms
  rw [npT_getD _ t (by rw [hhead]; exact ht),
    getD_map_of_lt _ _ _ _ [] hzlen,
    getD_map_of_lt _ _ _ _ ([], dfltFA) (by rw [List.length_zip]; omega),
    zip_getD _ _ _ _ _ hj1 hj2]
  unfold FuncApprox.evaluate
  rw [getD_map_of_lt _ _ _ _ 0
    (by rw [eval_z, linspace01_length]; exact ht)]

/-! ### Codec claim theorems -/

/-- C7: the encode direction fits each of the joint time series
independently with its own approximator on a normalized axis in `[0, 1]`
whose length equals the trajectory length; the decode direction evaluates
each parameter vector at the 100 evenly spaced normalized time points of
the fixed evaluation axis and assembles the per-joint series into a joint
trajectory whose length is that resolution. -/
theorem claim_C7_codec (fas : List FuncApprox)
    (q_array fa_parms : List (List ℚ)) :
    ((linspace01 q_array.length).length = q_array.length ∧
      ∀ z ∈ linspace01 q_array.length, 0 ≤ z ∧ z ≤ 1) ∧
    (∀ j, j < (derive_fa_parms_from_jnt_traj fas q_array).length →
      (derive_fa_parms_from_jnt_traj fas q_array).getD j []
        = (fas.getD j dfltFA).fit (linspace01 q_array.length)
            ((npT q_array).getD j [])) ∧
    (eval_z.length = 100 ∧ ∀ z ∈ eval_z, 0 ≤ z ∧ z ≤ 1) ∧
    (fa_parms ≠ [] → fas ≠ [] →
      (derive_jnt_traj_from_fa_parms fas fa_parms).length = 100) ∧
    (∀ t j, t < 100 → j < fa_parms.length → j < fas.length →
      ((derive_jnt_traj_from_fa_parms fas fa_parms).getD t []).getD j 0
        = (fas.getD j dfltFA).evalAt (fa_parms.getD j [])
            (eval_z.getD t 0)) := by
  refine ⟨⟨linspace01_length _, fun z hz => linspace01_mem _ z hz⟩, ?_,
    ⟨by rw [eval_z, linspace01_length], fun z hz => linspace01_mem _ z hz⟩,
    fun hp hf => derive_jnt_traj_length fas fa_parms hp hf,
    fun t j ht hj1 hj2 => derive_jnt_traj_getD fas fa_parms t j ht hj1 hj2⟩
  intro j hj
  have hj2 : j < ((npT q_array).zip fas).length := by
    rw [encode_length] at hj
    rw [List.length_zip, npT_length]
    omega
  have hja : j < (npT q_array).length := by
    rw [List.length_zip] at hj2; omega
  have hjb : j < fas.length := by
    rw [List.length_zip] at hj2; omega
  unfold derive_fa_parms_from_jnt_traj
  rw [getD_map_of_lt _ _ _ _ ([], dfltFA) hj2, zip_getD _ _ _ _ _ hja hjb]

theorem claim_C7_witness :
    ((derive_jnt_traj_from_fa_parms (List.replicate 7 dfltFA)
        (List.replicate 7 ([] : List ℚ))).length = 100) ∧
    ((derive_fa_parms_from_jnt_traj (List.replicate 7 dfltFA)
        (List.replicate 5 (List.replicate 7 (0 : ℚ)))).getD 0 []
      = ((List.replicate 7 dfltFA).getD 0 dfltFA).fit
          (linspace01 (List.replicate 5 (List.replicate 7 (0 : ℚ))).length)
          ((npT (List.replicate 5 (List.replicate 7 (0 : ℚ)))).getD 0 [])) :=
  ⟨(claim_C7_codec (List.replicate 7 dfltFA)
      (List.replicate 5 (List.replicate 7 (0 : ℚ)))
      (List.replicate 7 ([] : List ℚ))).2.2.2.1 (by decide) (by simp),
   (claim_C7_codec (List.replicate 7 dfltFA)
      (List.replicate 5 (List.replicate 7 (0 : ℚ)))
      (List.replicate 7 ([] : List ℚ))).2.1 0 (by decide)⟩

/-- C9: the decode direction always produces exactly 100 time steps (the
length of the evaluation axis fixed at construction time), regardless of
the length of the joint trajectory originally fitted: decoding any
nonempty parameter set, and in particular decoding the encoding of an
N-point trajectory for any N, yields a 100-point trajectory. -/
theorem claim_C9_fixed_resolution (fas : List FuncApprox)
    (fa_parms q_array : List (List ℚ)) (hfa : fas.length = 7) :
    (fa_parms ≠ [] →
      (derive_jnt_traj_from_fa_parms fas fa_parms).length = 100) ∧
    (q_array.headI.length = 7 →
      (derive_jnt_traj_from_fa_parms fas
        (derive_fa_parms_from_jnt_traj fas q_array)).length = 100) := by
  have hf : fas ≠ [] := by
    intro h; rw [h] at hfa; simp at hfa
  constructor
  · intro hp
    exact derive_jnt_traj_length fas fa_parms hp hf
  · intro hq
    apply derive_jnt_traj_length fas _ _ hf
    intro h
    have hlen := encode_length fas q_array
    rw [h, hq, hfa] at hlen
    simp at hlen

theorem claim_C9_witness :
    (derive_jnt_traj_from_fa_parms (List.replicate 7 dfltFA)
        (List.replicate 7 [(1 : ℚ)])).length = 100 ∧
    (derive_jnt_traj_from_fa_parms (List.replicate 7 dfltFA)
        (derive_fa_parms_from_jnt_traj (List.replicate 7 dfltFA)
          (List.replicate 3 (List.replicate 7 (0 : ℚ))))).length = 100 :=
  ⟨(claim_C9_fixed_resolution (List.replicate 7 dfltFA)
      (List.replicate 7 [(1 : ℚ)])
      (List.replicate 3 (List.replicate 7 (0 : ℚ))) (by decide)).1 (by decide),
   (claim_C9_fixed_resolution (List.replicate 7 dfltFA)
      (List.replicate 7 [(1 : ℚ)])
      (List.replicate 3 (List.replicate 7 (0 : ℚ))) (by decide)).2 (by decide)⟩

end BaxterWriterEmbedding
